import Mathlib

/-
Verification of the soft-delete component library of collaborationBridge.

Shallow embedding of:
  src/src/project_name/models/base.py            (SoftDeleteMixin)
  src/src/project_name/services/soft_delete_manager.py  (SoftDeleteManager)
  src/src/project_name/utils/database_utils.py   (CascadingSoftDeleteManager,
                                                  DatabaseHealthChecker)
  src/src/project_name/services/base_service.py  (BaseService.get_statistics)
  src/src/project_name/core/soft_delete_config.py (SoftDeleteConfig)

Timestamps are modelled as natural numbers; each call reads the clock once
(the source calls datetime.now per statement, which none of the verified
properties distinguish).  Database rows are lists of records; SQL UPDATE,
DELETE and SELECT statements become list transformations with the same
WHERE predicates as the source.
-/

/-- The four columns added by SoftDeleteMixin (models/base.py lines 89-143).
Column defaults: deleted_at, deleted_by, deletion_reason nullable (None),
is_deleted defaults to false. -/
structure SDE where
  deleted_at : Option Nat
  deleted_by : Option String
  deletion_reason : Option String
  is_deleted : Bool
deriving DecidableEq

/-- Initial state of a freshly created record: all four mixin fields unset or
false (column defaults in models/base.py). -/
def default_record : SDE :=
  { deleted_at := none, deleted_by := none, deletion_reason := none, is_deleted := false }

/-- models/base.py lines 196-203: is_soft_deleted property,
is_deleted and deleted_at is not None. -/
def is_soft_deleted (e : SDE) : Bool :=
  e.is_deleted && e.deleted_at.isSome

/-- The field assignment performed by a successful soft delete
(models/base.py lines 168-171): deleted_at set to the clock reading,
deleted_by and deletion_reason to the arguments, is_deleted to true. -/
def soft_delete_fields (dby reason : Option String) (now : Nat) : SDE :=
  { deleted_at := some now, deleted_by := dby, deletion_reason := reason, is_deleted := true }

/-- models/base.py lines 145-171: SoftDeleteMixin.soft_delete.  Raises
ValueError when the record is already soft deleted, otherwise sets the four
fields. -/
def soft_delete (e : SDE) (dby reason : Option String) (now : Nat) : Except String SDE :=
  if is_soft_deleted e then
    Except.error "Record is already deleted"
  else
    Except.ok (soft_delete_fields dby reason now)

/-- The field assignment performed by a successful restore
(models/base.py lines 191-194): all four fields cleared. -/
def restored_fields : SDE :=
  { deleted_at := none, deleted_by := none, deletion_reason := none, is_deleted := false }

/-- models/base.py lines 173-194: SoftDeleteMixin.restore.  Raises ValueError
when the record is not currently soft deleted, otherwise clears the four
fields. -/
def restore (e : SDE) : Except String SDE :=
  if !is_soft_deleted e then
    Except.error "Record is not deleted"
  else
    Except.ok restored_fields

/-- The spec invariant for a single record: is_deleted iff deleted_at set. -/
def sd_invariant (e : SDE) : Prop :=
  e.is_deleted = true ↔ e.deleted_at ≠ none

instance (e : SDE) : Decidable (sd_invariant e) := by
  unfold sd_invariant
  infer_instance

/-- C5: starting from the initial active state (all four mixin fields unset or
false), soft_delete followed immediately by restore returns the record to
exactly its initial field values. -/
theorem soft_delete_restore_roundtrip (e : SDE)
    (h1 : e.deleted_at = none) (h2 : e.deleted_by = none)
    (h3 : e.deletion_reason = none) (h4 : e.is_deleted = false)
    (dby reason : Option String) (now : Nat) :
    (soft_delete e dby reason now).bind restore = Except.ok e := by
  have he : e = default_record := by
    cases e
    simp only [default_record, SDE.mk.injEq]
    exact ⟨h1, h2, h3, h4⟩
  subst he
  rfl

theorem soft_delete_restore_roundtrip_witness :
    default_record.deleted_at = none ∧ default_record.deleted_by = none ∧
    default_record.deletion_reason = none ∧ default_record.is_deleted = false ∧
    (soft_delete default_record (some "admin") (some "cleanup") 5).bind restore
      = Except.ok default_record :=
  ⟨rfl, rfl, rfl, rfl,
   soft_delete_restore_roundtrip default_record rfl rfl rfl rfl
     (some "admin") (some "cleanup") 5⟩

/-- A table row: primary key plus the four mixin columns.  Domain columns are
irrelevant to every verified property. -/
structure Row where
  id : Nat
  e : SDE
deriving DecidableEq

/-- Effect of one UPDATE statement on one row: the row is rewritten to the
new field values when its id is in the batch and its current state satisfies
the WHERE condition on the mixin columns. -/
def upd_row (b : List Nat) (cond : SDE → Bool) (newe : SDE) (r : Row) : Row :=
  if decide (r.id ∈ b) && cond r.e then { r with e := newe } else r

/-- One set-based UPDATE over the whole table
(soft_delete_manager.py lines 101-117 and 158-174). -/
def update_where (b : List Nat) (cond : SDE → Bool) (newe : SDE) (db : List Row) : List Row :=
  db.map (upd_row b cond newe)

/-- The rowcount reported for that UPDATE: number of rows matched by the
WHERE clause. -/
def count_where (b : List Nat) (cond : SDE → Bool) (db : List Row) : Nat :=
  db.countP (fun r => decide (r.id ∈ b) && cond r.e)

/-- soft_delete_manager.py lines 97-118 / 154-175: the for-loop over
range(0, len(ids), batch_size).  Each iteration takes the next slice
ids[i:i+batch_size], issues one conditional UPDATE, and accumulates the
rowcount.  The slice of a nonempty list is its head plus the next
batch_size - 1 elements. -/
def batch_loop (cond : SDE → Bool) (newe : SDE) (bs : Nat)
    (ids : List Nat) (db : List Row) (total : Nat) : List Row × Nat :=
  match ids with
  | [] => (db, total)
  | i :: rest =>
      batch_loop cond newe bs (rest.drop (bs - 1))
        (update_where (i :: rest.take (bs - 1)) cond newe db)
        (total + count_where (i :: rest.take (bs - 1)) cond db)
termination_by ids.length
decreasing_by
  simp only [List.length_drop, List.length_cons]
  omega

/-- soft_delete_manager.py lines 60-121: SoftDeleteManager.bulk_soft_delete.
The issubclass capability test is the supports flag; it precedes the
empty-list shortcut; then the batched UPDATE restricted to currently-active
rows, setting the four audit fields. -/
def bulk_soft_delete (supports : Bool) (db : List Row) (ids : List Nat)
    (dby reason : Option String) (now : Nat) (bs : Nat) :
    Except String (List Row × Nat) :=
  if supports = false then
    Except.error "does not support soft delete"
  else if ids.isEmpty then
    Except.ok (db, 0)
  else
    Except.ok (batch_loop (fun e => !e.is_deleted)
      (soft_delete_fields dby reason now) bs ids db 0)

/-- soft_delete_manager.py lines 123-178: SoftDeleteManager.bulk_restore.
Mirror operation restricted to currently-deleted rows, clearing the four
fields. -/
def bulk_restore (supports : Bool) (db : List Row) (ids : List Nat) (bs : Nat) :
    Except String (List Row × Nat) :=
  if supports = false then
    Except.error "does not support soft delete"
  else if ids.isEmpty then
    Except.ok (db, 0)
  else
    Except.ok (batch_loop (fun e => e.is_deleted) restored_fields bs ids db 0)

theorem upd_row_twice {cond : SDE → Bool} {newe : SDE} (h : cond newe = false)
    (b1 b2 : List Nat) (r : Row) :
    upd_row b2 cond newe (upd_row b1 cond newe r) = upd_row (b1 ++ b2) cond newe r := by
  by_cases h1 : r.id ∈ b1 <;> by_cases hc : cond r.e = true <;>
    by_cases h2 : r.id ∈ b2 <;>
    simp [upd_row, h1, hc, h2, h, List.mem_append]

theorem update_where_update_where {cond : SDE → Bool} {newe : SDE}
    (h : cond newe = false) (b1 b2 : List Nat) (db : List Row) :
    update_where b2 cond newe (update_where b1 cond newe db)
      = update_where (b1 ++ b2) cond newe db := by
  unfold update_where
  rw [List.map_map]
  exact List.map_congr_left (fun r _ => upd_row_twice h b1 b2 r)

theorem count_row_split {cond : SDE → Bool} {newe : SDE} (h : cond newe = false)
    (b1 b2 : List Nat) (r : Row) :
    (if decide (r.id ∈ b1) && cond r.e then 1 else 0)
      + (if decide ((upd_row b1 cond newe r).id ∈ b2)
            && cond (upd_row b1 cond newe r).e then 1 else 0)
      = (if decide (r.id ∈ b1 ++ b2) && cond r.e then 1 else 0) := by
  by_cases h1 : r.id ∈ b1 <;> by_cases hc : cond r.e = true <;>
    by_cases h2 : r.id ∈ b2 <;>
    simp [upd_row, h1, hc, h2, h, List.mem_append]

theorem count_where_split {cond : SDE → Bool} {newe : SDE} (h : cond newe = false)
    (b1 b2 : List Nat) (db : List Row) :
    count_where b1 cond db + count_where b2 cond (update_where b1 cond newe db)
      = count_where (b1 ++ b2) cond db := by
  induction db with
  | nil => simp [count_where, update_where]
  | cons r db ih =>
      simp only [count_where, update_where, List.map_cons, List.countP_cons] at *
      have := count_row_split h b1 b2 r
      omega

theorem update_where_nil (cond : SDE → Bool) (newe : SDE) (db : List Row) :
    update_where [] cond newe db = db := by
  unfold update_where
  have h : ∀ r ∈ db, upd_row [] cond newe r = r := by
    intro r _
    simp [upd_row]
  rw [List.map_congr_left h]
  exact List.map_id db

theorem count_where_nil (cond : SDE → Bool) (db : List Row) :
    count_where [] cond db = 0 := by
  unfold count_where
  induction db with
  | nil => rfl
  | cons r db ih => simp [List.countP_cons, ih]

/-- The batched loop is equivalent to a single conditional update over the
whole id list, provided an updated row no longer matches the condition
(true for both bulk operations, whose WHERE clause excludes the state they
write). -/
theorem batch_loop_spec (cond : SDE → Bool) (newe : SDE) (h : cond newe = false)
    (bs : Nat) :
    ∀ n ids, List.length ids ≤ n → ∀ db total,
      batch_loop cond newe bs ids db total
        = (update_where ids cond newe db, total + count_where ids cond db) := by
  intro n
  induction n with
  | zero =>
      intro ids hlen db total
      have hids : ids = [] := List.eq_nil_of_length_eq_zero (Nat.le_zero.mp hlen)
      subst hids
      rw [batch_loop, update_where_nil, count_where_nil, Nat.add_zero]
  | succ n ih =>
      intro ids hlen db total
      match ids with
      | [] => rw [batch_loop, update_where_nil, count_where_nil, Nat.add_zero]
      | i :: rest =>
          rw [batch_loop]
          have hrest : (rest.drop (bs - 1)).length ≤ n := by
            have := List.length_drop (bs - 1) rest
            simp only [List.length_cons] at hlen
            omega
          rw [ih _ hrest]
          have hsplit : (i :: rest.take (bs - 1)) ++ rest.drop (bs - 1) = i :: rest := by
            rw [List.cons_append, List.take_append_drop]
          rw [update_where_update_where h, Nat.add_assoc, count_where_split h, hsplit]

/-- C3: for a soft-delete-capable type and any ID list, bulk_soft_delete
rewrites exactly the rows whose id is in the list and that are currently
active, setting the four audit fields on them, and returns the number of
such rows; rows already deleted (or outside the list) are untouched and not
counted, and no error is raised. -/
theorem bulk_soft_delete_spec (db : List Row) (ids : List Nat)
    (dby reason : Option String) (now bs : Nat) (hbs : 0 < bs) :
    bulk_soft_delete true db ids dby reason now bs =
      Except.ok
        (db.map (fun r =>
            if decide (r.id ∈ ids) && !r.e.is_deleted
            then { r with e := soft_delete_fields dby reason now } else r),
         db.countP (fun r => decide (r.id ∈ ids) && !r.e.is_deleted)) := by
  have h := batch_loop_spec (fun e => !e.is_deleted) (soft_delete_fields dby reason now)
    (by simp [soft_delete_fields]) bs ids.length ids le_rfl db 0
  cases ids with
  | nil =>
      show Except.ok (db, 0) = _
      have h1 := update_where_nil (fun e => !e.is_deleted) (soft_delete_fields dby reason now) db
      have h2 := count_where_nil (fun e => !e.is_deleted) db
      refine congrArg Except.ok ?_
      rw [Prod.mk.injEq]
      exact ⟨h1.symm, h2.symm⟩
  | cons i rest =>
      show Except.ok (batch_loop (fun e => !e.is_deleted)
        (soft_delete_fields dby reason now) bs (i :: rest) db 0) = _
      rw [h, Nat.zero_add]
      rfl

theorem bulk_soft_delete_spec_witness :
    0 < 1 ∧
    bulk_soft_delete true
        [⟨1, default_record⟩, ⟨2, ⟨some 3, none, none, true⟩⟩, ⟨5, default_record⟩]
        [1, 2] (some "admin") (some "cleanup") 9 1 =
      Except.ok
        (([⟨1, default_record⟩, ⟨2, ⟨some 3, none, none, true⟩⟩,
           ⟨5, default_record⟩] : List Row).map (fun r =>
            if decide (r.id ∈ [1, 2]) && !r.e.is_deleted
            then { r with e := soft_delete_fields (some "admin") (some "cleanup") 9 } else r),
         ([⟨1, default_record⟩, ⟨2, ⟨some 3, none, none, true⟩⟩,
           ⟨5, default_record⟩] : List Row).countP
            (fun r => decide (r.id ∈ [1, 2]) && !r.e.is_deleted)) :=
  ⟨Nat.zero_lt_one,
   bulk_soft_delete_spec
     [⟨1, default_record⟩, ⟨2, ⟨some 3, none, none, true⟩⟩, ⟨5, default_record⟩]
     [1, 2] (some "admin") (some "cleanup") 9 1 Nat.zero_lt_one⟩

/-- C8: the capability check precedes the empty-list shortcut.  On a type
without soft-delete support both bulk operations raise for every ID list,
the empty list included; on a supported type with an empty list both return
zero with the table untouched. -/
theorem bulk_capability_before_empty :
    (∀ db ids dby reason now bs,
        bulk_soft_delete false db ids dby reason now bs
          = Except.error "does not support soft delete") ∧
    (∀ db ids bs,
        bulk_restore false db ids bs
          = Except.error "does not support soft delete") ∧
    (∀ db dby reason now bs,
        bulk_soft_delete true db [] dby reason now bs = Except.ok (db, 0)) ∧
    (∀ db bs, bulk_restore true db [] bs = Except.ok (db, 0)) :=
  ⟨fun _ _ _ _ _ _ => rfl, fun _ _ _ => rfl, fun _ _ _ _ _ => rfl, fun _ _ => rfl⟩

/-- Rows surviving the batched loop are either original rows of the table or
rows rewritten to the new field values. -/
theorem batch_loop_rows {cond : SDE → Bool} {newe : SDE} (h : cond newe = false)
    (bs : Nat) (ids : List Nat) (db : List Row) (total : Nat) :
    ∀ r ∈ (batch_loop cond newe bs ids db total).1,
      r ∈ db ∨ ∃ r0 ∈ db, r = { r0 with e := newe } := by
  rw [batch_loop_spec cond newe h bs ids.length ids le_rfl db total]
  intro r hr
  rcases List.mem_map.mp hr with ⟨r0, hr0, heq⟩
  unfold upd_row at heq
  by_cases hcase : (decide (r0.id ∈ ids) && cond r0.e) = true
  · rw [if_pos hcase] at heq
    exact Or.inr ⟨r0, hr0, heq.symm⟩
  · rw [if_neg hcase] at heq
    exact Or.inl (heq ▸ hr0)

/-- C4: the invariant that is_deleted holds exactly when deleted_at is set is
true of a freshly created record and is preserved by single-record
soft_delete and restore as well as by bulk_soft_delete and bulk_restore. -/
theorem sd_invariant_preserved :
    sd_invariant default_record ∧
    (∀ e dby reason now e', soft_delete e dby reason now = Except.ok e' → sd_invariant e') ∧
    (∀ e e', restore e = Except.ok e' → sd_invariant e') ∧
    (∀ db ids dby reason now bs out, 0 < bs →
        bulk_soft_delete true db ids dby reason now bs = Except.ok out →
        (∀ r ∈ db, sd_invariant r.e) → ∀ r ∈ out.1, sd_invariant r.e) ∧
    (∀ db ids bs out, 0 < bs →
        bulk_restore true db ids bs = Except.ok out →
        (∀ r ∈ db, sd_invariant r.e) → ∀ r ∈ out.1, sd_invariant r.e) := by
  refine ⟨by decide, ?_, ?_, ?_, ?_⟩
  · intro e dby reason now e' hok
    unfold soft_delete at hok
    by_cases hsd : is_soft_deleted e = true
    · rw [if_pos hsd] at hok
      cases hok
    · rw [if_neg hsd] at hok
      cases hok
      simp [sd_invariant, soft_delete_fields]
  · intro e e' hok
    unfold restore at hok
    by_cases hsd : (!is_soft_deleted e) = true
    · rw [if_pos hsd] at hok
      cases hok
    · rw [if_neg hsd] at hok
      cases hok
      simp [sd_invariant, restored_fields]
  · intro db ids dby reason now bs out _ hok hdb r hr
    unfold bulk_soft_delete at hok
    rw [if_neg (by simp)] at hok
    by_cases hids : ids.isEmpty = true
    · rw [if_pos hids] at hok
      cases hok
      exact hdb r hr
    · rw [if_neg hids] at hok
      cases hok
      rcases batch_loop_rows (by simp [soft_delete_fields]) bs ids db 0 r hr with
        hmem | ⟨r0, _, heq⟩
      · exact hdb r hmem
      · rw [heq]
        simp [sd_invariant, soft_delete_fields]
  · intro db ids bs out _ hok hdb r hr
    unfold bulk_restore at hok
    rw [if_neg (by simp)] at hok
    by_cases hids : ids.isEmpty = true
    · rw [if_pos hids] at hok
      cases hok
      exact hdb r hr
    · rw [if_neg hids] at hok
      cases hok
      rcases batch_loop_rows (show (fun e : SDE => e.is_deleted) restored_fields = false
          from rfl) bs ids db 0 r hr with hmem | ⟨r0, _, heq⟩
      · exact hdb r hmem
      · rw [heq]
        simp [sd_invariant, restored_fields]

theorem sd_invariant_preserved_witness :
    sd_invariant (soft_delete_fields (some "admin") none 5) ∧
    sd_invariant restored_fields ∧
    (∀ r ∈ (batch_loop (fun e => !e.is_deleted) (soft_delete_fields none none 7)
        1 [1] [⟨1, default_record⟩] 0).1, sd_invariant r.e) ∧
    (∀ r ∈ (batch_loop (fun e => e.is_deleted) restored_fields
        1 [2] [⟨2, ⟨some 1, none, none, true⟩⟩] 0).1, sd_invariant r.e) :=
  ⟨sd_invariant_preserved.2.1 default_record (some "admin") none 5 _ rfl,
   sd_invariant_preserved.2.2.1 ⟨some 1, none, none, true⟩ _ rfl,
   sd_invariant_preserved.2.2.2.1 [⟨1, default_record⟩] [1] none none 7 1 _
     Nat.zero_lt_one rfl (by decide),
   sd_invariant_preserved.2.2.2.2 [⟨2, ⟨some 1, none, none, true⟩⟩] [2] 1 _
     Nat.zero_lt_one rfl (by decide)⟩

/-- WHERE clause of hard_delete_before (soft_delete_manager.py lines
214-223): is_deleted and deleted_at earlier than the cutoff.  A row with a
NULL deleted_at does not match, as in SQL. -/
def hd_match (ts : Nat) (r : Row) : Bool :=
  r.e.is_deleted &&
    (match r.e.deleted_at with
     | some t => decide (t < ts)
     | none => false)

/-- The SELECT of ids of matching rows LIMIT batch_size. -/
def hd_batch (ts bs : Nat) (db : List Row) : List Nat :=
  ((db.filter (hd_match ts)).map Row.id).take bs

/-- soft_delete_manager.py lines 212-237: the while-True loop.  Each pass
selects up to batch_size matching ids; when none come back the loop breaks,
otherwise one DELETE removes every row whose id is in the batch and the
rowcount accumulates. -/
def hard_delete_loop (ts bs : Nat) (db : List Row) (total : Nat) : List Row × Nat :=
  if h : hd_batch ts bs db = [] then (db, total)
  else
    hard_delete_loop ts bs
      (db.filter fun r => !decide (r.id ∈ hd_batch ts bs db))
      (total + db.countP fun r => decide (r.id ∈ hd_batch ts bs db))
termination_by db.length
decreasing_by
  apply List.length_filter_lt_length_iff_exists.mpr
  obtain ⟨x, hx⟩ := List.exists_mem_of_ne_nil _ h
  obtain ⟨r, hrf, hrid⟩ := List.mem_map.mp (List.take_subset _ _ hx)
  refine ⟨r, (List.mem_filter.mp hrf).1, ?_⟩
  simp [hrid, hx]

/-- soft_delete_manager.py lines 180-238: SoftDeleteManager.hard_delete_before.
Capability check, then the batched physical-delete loop starting from a zero
total. -/
def hard_delete_before (supports : Bool) (db : List Row) (ts bs : Nat) :
    Except String (List Row × Nat) :=
  if supports = false then
    Except.error "does not support soft delete"
  else
    Except.ok (hard_delete_loop ts bs db 0)

theorem countP_add_of_pointwise {α : Type} :
    ∀ (l : List α) (p q s : α → Bool),
      (∀ a ∈ l, (if p a then 1 else 0) + (if q a then 1 else 0)
          = (if s a then 1 else 0)) →
      l.countP p + l.countP q = l.countP s := by
  intro l
  induction l with
  | nil => intro p q s _; rfl
  | cons a l ih =>
      intro p q s hpt
      have hhead := hpt a (List.mem_cons_self a l)
      have htail := ih p q s (fun b hb => hpt b (List.mem_cons_of_mem a hb))
      simp only [List.countP_cons]
      omega

/-- The physical-delete loop removes exactly the matching rows and counts
them, for a positive batch size and a table whose primary keys are distinct. -/
theorem hard_delete_loop_spec (ts bs : Nat) (hbs : 0 < bs) :
    ∀ n db, List.length db ≤ n → (db.map Row.id).Nodup → ∀ total,
      hard_delete_loop ts bs db total
        = (db.filter (fun r => !hd_match ts r), total + db.countP (hd_match ts)) := by
  intro n
  induction n with
  | zero =>
      intro db hlen _ total
      have hdb : db = [] := List.eq_nil_of_length_eq_zero (Nat.le_zero.mp hlen)
      subst hdb
      unfold hard_delete_loop
      rw [dif_pos (by simp [hd_batch])]
      rfl
  | succ n ih =>
      intro db hlen hnd total
      by_cases hb : hd_batch ts bs db = []
      · unfold hard_delete_loop
        rw [dif_pos hb]
        have hfe : db.filter (hd_match ts) = [] := by
          unfold hd_batch at hb
          rcases List.take_eq_nil_iff.mp hb with h0 | hmap
          · exact absurd h0 (by omega)
          · exact List.map_eq_nil_iff.mp hmap
        have hnone : ∀ r ∈ db, ¬ hd_match ts r = true := List.filter_eq_nil_iff.mp hfe
        have hkeep : db.filter (fun r => !hd_match ts r) = db :=
          List.filter_eq_self.mpr (fun r hr => by simp [hnone r hr])
        have hcnt : db.countP (hd_match ts) = 0 := by
          rw [List.countP_eq_length_filter, hfe]
          rfl
        rw [hkeep, hcnt, Nat.add_zero]
      · unfold hard_delete_loop
        rw [dif_neg hb]
        have hinj := List.inj_on_of_nodup_map hnd
        have hbm : ∀ r ∈ db, r.id ∈ hd_batch ts bs db → hd_match ts r = true := by
          intro r hr hid
          obtain ⟨r2, hr2f, hr2id⟩ := List.mem_map.mp (List.take_subset _ _ hid)
          obtain ⟨hr2db, hr2m⟩ := List.mem_filter.mp hr2f
          have heq : r2 = r := hinj hr2db hr hr2id
          exact heq ▸ hr2m
        set db2 := db.filter (fun r => !decide (r.id ∈ hd_batch ts bs db)) with hdb2
        have hlt : db2.length < db.length := by
          rw [hdb2]
          apply List.length_filter_lt_length_iff_exists.mpr
          obtain ⟨x, hx⟩ := List.exists_mem_of_ne_nil _ hb
          obtain ⟨r, hrf, hrid⟩ := List.mem_map.mp (List.take_subset _ _ hx)
          refine ⟨r, (List.mem_filter.mp hrf).1, ?_⟩
          simp [hrid, hx]
        have hlen2 : db2.length ≤ n := by omega
        have hnd2 : (db2.map Row.id).Nodup :=
          List.Nodup.sublist (List.Sublist.map Row.id (List.filter_sublist db)) hnd
        rw [ih db2 hlen2 hnd2 (total + db.countP fun r => decide (r.id ∈ hd_batch ts bs db))]
        have hg1 : db2.filter (fun r => !hd_match ts r)
            = db.filter (fun r => !hd_match ts r) := by
          rw [hdb2, List.filter_filter]
          apply List.filter_congr
          intro r hr
          by_cases hm : hd_match ts r = true
          · simp [hm]
          · have hnin : r.id ∉ hd_batch ts bs db := fun hin => hm (hbm r hr hin)
            simp [hm, hnin]
        have hg2 : db.countP (fun r => decide (r.id ∈ hd_batch ts bs db))
              + db2.countP (hd_match ts) = db.countP (hd_match ts) := by
          rw [hdb2, List.countP_filter]
          apply countP_add_of_pointwise
          intro r hr
          by_cases hin : r.id ∈ hd_batch ts bs db
          · have hm := hbm r hr hin
            simp [hin, hm]
          · simp [hin]
        rw [hg1, Prod.mk.injEq]
        exact ⟨rfl, by omega⟩

/-- C6 (amended): with a positive batch size, and ids being primary keys
(pairwise distinct), hard_delete_before physically removes exactly the rows
with is_deleted true and deleted_at earlier than the cutoff, looping until
none match, and returns their number; every active row and every deleted row
at or after the cutoff survives unchanged. -/
theorem hard_delete_before_spec (db : List Row) (ts bs : Nat) (hbs : 0 < bs)
    (hnd : (db.map Row.id).Nodup) :
    hard_delete_before true db ts bs =
      Except.ok (db.filter (fun r => !hd_match ts r), db.countP (hd_match ts)) := by
  show Except.ok (hard_delete_loop ts bs db 0) = _
  rw [hard_delete_loop_spec ts bs hbs db.length db le_rfl hnd 0, Nat.zero_add]

theorem hard_delete_before_spec_witness :
    0 < 2 ∧
    (([⟨1, default_record⟩, ⟨2, ⟨some 1, none, none, true⟩⟩,
       ⟨3, ⟨some 99, none, none, true⟩⟩] : List Row).map Row.id).Nodup ∧
    hard_delete_before true
        [⟨1, default_record⟩, ⟨2, ⟨some 1, none, none, true⟩⟩,
         ⟨3, ⟨some 99, none, none, true⟩⟩] 10 2 =
      Except.ok
        (([⟨1, default_record⟩, ⟨2, ⟨some 1, none, none, true⟩⟩,
           ⟨3, ⟨some 99, none, none, true⟩⟩] : List Row).filter
            (fun r => !hd_match 10 r),
         ([⟨1, default_record⟩, ⟨2, ⟨some 1, none, none, true⟩⟩,
           ⟨3, ⟨some 99, none, none, true⟩⟩] : List Row).countP (hd_match 10)) :=
  ⟨by decide, by decide,
   hard_delete_before_spec
     [⟨1, default_record⟩, ⟨2, ⟨some 1, none, none, true⟩⟩,
      ⟨3, ⟨some 99, none, none, true⟩⟩] 10 2 (by decide) (by decide)⟩

/-- C6 (counterexample to the claim as stated): with batch_size zero the
SELECT has LIMIT 0, the first batch comes back empty and the loop exits at
once, so a row that is deleted and older than the cutoff survives and the
returned count is zero. -/
theorem hard_delete_before_counterexample :
    hd_match 10 ⟨1, ⟨some 0, none, none, true⟩⟩ = true ∧
    hard_delete_before true [⟨1, ⟨some 0, none, none, true⟩⟩] 10 0
      = Except.ok ([⟨1, ⟨some 0, none, none, true⟩⟩], 0) := by
  refine ⟨rfl, ?_⟩
  show Except.ok (hard_delete_loop 10 0 [⟨1, ⟨some 0, none, none, true⟩⟩] 0) = _
  unfold hard_delete_loop
  rw [dif_pos (show hd_batch 10 0 [(⟨1, ⟨some 0, none, none, true⟩⟩ : Row)] = [] from rfl)]

/-- A node key in the relationship graph: entity type name and primary key,
as built in database_utils.py line 365. -/
abbrev Key := String × Nat

/-- Traversal state of CascadingSoftDeleteManager: the session contents
(record state per key), the per-type running counts (deleted_counts), and
the processed-instances set, kept as a list. -/
structure CState where
  db : Key → SDE
  counts : String → Nat
  visited : List Key

/-- database_utils.py lines 364-376: record the key as processed and, when
the record is not yet soft deleted, apply the soft-delete field assignment
(the guard is exactly the success condition of the inner soft_delete call,
so that call cannot raise) and bump the counter for its type name. -/
def visit_node (dby reason : Option String) (now : Nat) (k : Key) (s : CState) : CState :=
  if is_soft_deleted (s.db k) then
    { s with visited := k :: s.visited }
  else
    { db := fun k2 => if k2 = k then soft_delete_fields dby reason now else s.db k2,
      counts := fun t => if t = k.1 then s.counts t + 1 else s.counts t,
      visited := k :: s.visited }

/-- database_utils.py lines 385-429: _process_relationships.  Iterate the
relationship attributes of the node in order, recursing through the supplied
continuation (the recursion one depth level down) into each related record
that carries soft_delete and is not yet soft deleted in the current state. -/
def process_relationships (f : Key → CState → CState) (hasSD : Key → Bool) :
    List Key → CState → CState
  | [], s => s
  | r :: rest, s =>
      process_relationships f hasSD rest
        (if hasSD r && !is_soft_deleted (s.db r) then f r s else s)

/-- database_utils.py lines 345-383: _cascade_delete_recursive.  Return at
once when the key was already processed; otherwise visit the node; when the
remaining depth is still positive, process the relationships with the budget
decremented by one; at depth zero stop after the node itself (the truncation
point: no error is raised). -/
def cascade_delete_recursive (rel : Key → List Key) (hasSD : Key → Bool)
    (dby reason : Option String) (now : Nat) : Nat → Key → CState → CState
  | 0 => fun k s =>
      if k ∈ s.visited then s else visit_node dby reason now k s
  | d + 1 => fun k s =>
      if k ∈ s.visited then s
      else
        process_relationships (cascade_delete_recursive rel hasSD dby reason now d)
          hasSD (rel k) (visit_node dby reason now k s)

/-- State at entry of cascade_soft_delete (database_utils.py lines 335-336):
session as given, empty counts, nothing processed. -/
def init_cascade_state (db : Key → SDE) : CState :=
  { db := db, counts := fun _ => 0, visited := [] }

/-- database_utils.py lines 311-343: cascade_soft_delete.  Raises ValueError
when max_depth is not positive, before touching any record; otherwise runs
the recursion and commits the resulting state. -/
def cascade_soft_delete (rel : Key → List Key) (hasSD : Key → Bool)
    (db : Key → SDE) (root : Key) (dby reason : Option String) (now : Nat)
    (max_depth : Int) : Except String CState :=
  if max_depth ≤ 0 then
    Except.error "Maximum cascade depth exceeded"
  else
    Except.ok (cascade_delete_recursive rel hasSD dby reason now
      max_depth.toNat root (init_cascade_state db))

/-- Traversal invariant relative to the session contents db0 at entry:
processed keys are pairwise distinct; unprocessed keys still hold their
entry state; every key holds its entry state or the soft-deleted fields;
keys already soft deleted at entry are untouched; and each per-type counter
equals the number of processed keys of that type that were active at entry. -/
def cascade_inv (db0 : Key → SDE) (dby reason : Option String) (now : Nat)
    (s : CState) : Prop :=
  s.visited.Nodup ∧
  (∀ k, k ∉ s.visited → s.db k = db0 k) ∧
  (∀ k, s.db k = db0 k ∨ s.db k = soft_delete_fields dby reason now) ∧
  (∀ k, is_soft_deleted (db0 k) = true → s.db k = db0 k) ∧
  (∀ t, s.counts t
    = (s.visited.filter (fun k => decide (k.1 = t) && !is_soft_deleted (db0 k))).length)

theorem visit_node_inv {db0 : Key → SDE} {dby reason : Option String} {now : Nat}
    (k : Key) (s : CState) (hk : k ∉ s.visited)
    (h : cascade_inv db0 dby reason now s) :
    cascade_inv db0 dby reason now (visit_node dby reason now k s) := by
  obtain ⟨h1, h2, h3, h4, h5⟩ := h
  have hdbk : s.db k = db0 k := h2 k hk
  unfold visit_node
  by_cases hsd : is_soft_deleted (s.db k) = true
  · rw [if_pos hsd]
    refine ⟨List.nodup_cons.mpr ⟨hk, h1⟩, ?_, h3, h4, ?_⟩
    · intro k2 hk2
      exact h2 k2 (fun hm => hk2 (List.mem_cons_of_mem _ hm))
    · intro t
      rw [List.filter_cons]
      have hp : (decide (k.1 = t) && !is_soft_deleted (db0 k)) = false := by
        rw [← hdbk, hsd]
        simp
      rw [hp]
      exact h5 t
  · rw [if_neg hsd]
    refine ⟨List.nodup_cons.mpr ⟨hk, h1⟩, ?_, ?_, ?_, ?_⟩
    · intro k2 hk2
      have hne : k2 ≠ k := fun he => hk2 (he ▸ List.mem_cons_self k s.visited)
      dsimp only
      rw [if_neg hne]
      exact h2 k2 (fun hm => hk2 (List.mem_cons_of_mem _ hm))
    · intro k2
      dsimp only
      by_cases he : k2 = k
      · rw [if_pos he]
        exact Or.inr rfl
      · rw [if_neg he]
        exact h3 k2
    · intro k2 hk2sd
      dsimp only
      by_cases he : k2 = k
      · subst he
        exact absurd (by rw [hdbk]; exact hk2sd) hsd
      · rw [if_neg he]
        exact h4 k2 hk2sd
    · intro t
      dsimp only
      rw [List.filter_cons]
      by_cases ht : k.1 = t
      · have hsd2 : is_soft_deleted (s.db k) = false := Bool.eq_false_iff.mpr hsd
        have hp : (decide (k.1 = t) && !is_soft_deleted (db0 k)) = true := by
          rw [← hdbk, hsd2]
          simp [ht]
        rw [hp, if_pos ht.symm, h5 t]
        simp
      · have hp : (decide (k.1 = t) && !is_soft_deleted (db0 k)) = false := by
          simp [ht]
        rw [hp, if_neg (fun he => ht he.symm)]
        exact h5 t

theorem process_relationships_inv {db0 : Key → SDE} {dby reason : Option String}
    {now : Nat} (f : Key → CState → CState) (hasSD : Key → Bool)
    (hf : ∀ k s, cascade_inv db0 dby reason now s →
      cascade_inv db0 dby reason now (f k s)) :
    ∀ rs s, cascade_inv db0 dby reason now s →
      cascade_inv db0 dby reason now (process_relationships f hasSD rs s) := by
  intro rs
  induction rs with
  | nil =>
      intro s h
      exact h
  | cons r rest ih =>
      intro s h
      simp only [process_relationships]
      apply ih
      by_cases hc : (hasSD r && !is_soft_deleted (s.db r)) = true
      · rw [if_pos hc]
        exact hf r s h
      · rw [if_neg hc]
        exact h

theorem cascade_delete_recursive_inv {db0 : Key → SDE} {dby reason : Option String}
    {now : Nat} (rel : Key → List Key) (hasSD : Key → Bool) :
    ∀ d k s, cascade_inv db0 dby reason now s →
      cascade_inv db0 dby reason now
        (cascade_delete_recursive rel hasSD dby reason now d k s) := by
  intro d
  induction d with
  | zero =>
      intro k s h
      simp only [cascade_delete_recursive]
      by_cases hv : k ∈ s.visited
      · rw [if_pos hv]
        exact h
      · rw [if_neg hv]
        exact visit_node_inv k s hv h
  | succ d ih =>
      intro k s h
      simp only [cascade_delete_recursive]
      by_cases hv : k ∈ s.visited
      · rw [if_pos hv]
        exact h
      · rw [if_neg hv]
        exact process_relationships_inv _ hasSD (fun k2 s2 h2 => ih k2 s2 h2) (rel k)
          (visit_node dby reason now k s) (visit_node_inv k s hv h)

theorem init_cascade_state_inv (db0 : Key → SDE) (dby reason : Option String)
    (now : Nat) : cascade_inv db0 dby reason now (init_cascade_state db0) :=
  ⟨List.nodup_nil, fun _ _ => rfl, fun _ => Or.inl rfl, fun _ _ => rfl, fun _ => rfl⟩

/-- C2: for every relationship graph, cycles included, cascade_soft_delete
with a positive depth terminates (the model function is total) and in the
resulting state: records already soft deleted at entry are untouched, every
record is either untouched or soft-deleted exactly once with the propagated
audit fields, the processed keys are pairwise distinct, and each per-type
count equals the number of distinct processed keys of that type that were
active at entry, so no record is counted twice. -/
theorem cascade_soft_delete_once (rel : Key → List Key) (hasSD : Key → Bool)
    (db : Key → SDE) (root : Key) (dby reason : Option String) (now : Nat)
    (max_depth : Int) (hd : 0 < max_depth) :
    ∀ s2, cascade_soft_delete rel hasSD db root dby reason now max_depth
        = Except.ok s2 →
      (∀ k, is_soft_deleted (db k) = true → s2.db k = db k) ∧
      (∀ k, s2.db k = db k ∨ s2.db k = soft_delete_fields dby reason now) ∧
      s2.visited.Nodup ∧
      (∀ t, s2.counts t
        = (s2.visited.filter
            (fun k => decide (k.1 = t) && !is_soft_deleted (db k))).length) := by
  intro s2 hok
  unfold cascade_soft_delete at hok
  rw [if_neg (by omega : ¬ max_depth ≤ 0)] at hok
  cases hok
  obtain ⟨h1, _, h3, h4, h5⟩ :=
    cascade_delete_recursive_inv rel hasSD max_depth.toNat root
      (init_cascade_state db) (init_cascade_state_inv db dby reason now)
  exact ⟨h4, h3, h1, h5⟩

/-- Cyclic two-node graph used as concrete input: the root and its child
each point back at the other. -/
def cyc_rel : Key → List Key := fun k =>
  if k = ("T", 1) then [("T", 2)] else if k = ("T", 2) then [("T", 1)] else []

def cyc_hasSD : Key → Bool := fun _ => true

def cyc_db : Key → SDE := fun _ => default_record

theorem cascade_soft_delete_once_witness :
    (0 : Int) < 3 ∧
    (∀ s2, cascade_soft_delete cyc_rel cyc_hasSD cyc_db ("T", 1)
        (some "admin") none 7 3 = Except.ok s2 →
      (∀ k, is_soft_deleted (cyc_db k) = true → s2.db k = cyc_db k) ∧
      (∀ k, s2.db k = cyc_db k ∨ s2.db k = soft_delete_fields (some "admin") none 7) ∧
      s2.visited.Nodup ∧
      (∀ t, s2.counts t
        = (s2.visited.filter
            (fun k => decide (k.1 = t) && !is_soft_deleted (cyc_db k))).length)) :=
  ⟨by decide,
   cascade_soft_delete_once cyc_rel cyc_hasSD cyc_db ("T", 1)
     (some "admin") none 7 3 (by decide)⟩

/-- C7: a non-positive max_depth raises the depth error at entry; the
recursion is never started, so no record state is produced or modified. -/
theorem cascade_soft_delete_nonpositive_depth (rel : Key → List Key)
    (hasSD : Key → Bool) (db : Key → SDE) (root : Key)
    (dby reason : Option String) (now : Nat) (max_depth : Int)
    (hd : max_depth ≤ 0) :
    cascade_soft_delete rel hasSD db root dby reason now max_depth
      = Except.error "Maximum cascade depth exceeded" := by
  unfold cascade_soft_delete
  rw [if_pos hd]

theorem cascade_soft_delete_nonpositive_depth_witness :
    (0 : Int) ≤ 0 ∧
    cascade_soft_delete cyc_rel cyc_hasSD cyc_db ("T", 1) none none 7 0
      = Except.error "Maximum cascade depth exceeded" :=
  ⟨le_refl 0,
   cascade_soft_delete_nonpositive_depth cyc_rel cyc_hasSD cyc_db ("T", 1)
     none none 7 0 (le_refl 0)⟩

/-- C1 (amended): once the entry check passes (max_depth positive) the call
always returns normally, and when the remaining depth budget reaches zero
while related records remain unprocessed the traversal silently truncates:
at depth zero only the visited node itself can change, every other record
keeps its state and no depth-exceeded error is raised. -/
theorem cascade_truncates_silently :
    (∀ (rel : Key → List Key) (hasSD : Key → Bool) (db : Key → SDE) (root : Key)
        (dby reason : Option String) (now : Nat) (max_depth : Int),
      0 < max_depth →
        cascade_soft_delete rel hasSD db root dby reason now max_depth
          = Except.ok (cascade_delete_recursive rel hasSD dby reason now
              max_depth.toNat root (init_cascade_state db))) ∧
    (∀ (rel : Key → List Key) (hasSD : Key → Bool) (dby reason : Option String)
        (now : Nat) (k : Key) (s : CState) (k2 : Key),
      k2 ≠ k →
        (cascade_delete_recursive rel hasSD dby reason now 0 k s).db k2 = s.db k2) := by
  constructor
  · intro rel hasSD db root dby reason now md hmd
    unfold cascade_soft_delete
    rw [if_neg (by omega : ¬ md ≤ 0)]
  · intro rel hasSD dby reason now k s k2 hne
    simp only [cascade_delete_recursive]
    by_cases hv : k ∈ s.visited
    · rw [if_pos hv]
    · rw [if_neg hv]
      unfold visit_node
      by_cases hsd : is_soft_deleted (s.db k) = true
      · rw [if_pos hsd]
      · rw [if_neg hsd]
        dsimp only
        rw [if_neg hne]

/-- Three-node chain used as concrete input: node 1 points at node 2, which
points at node 3; all records start active. -/
def chain_rel : Key → List Key := fun k =>
  if k = ("T", 1) then [("T", 2)] else if k = ("T", 2) then [("T", 3)] else []

def chain_hasSD : Key → Bool := fun _ => true

def chain_db : Key → SDE := fun _ => default_record

def chain_result : CState :=
  cascade_delete_recursive chain_rel chain_hasSD none none 7 1 ("T", 1)
    (init_cascade_state chain_db)

theorem cascade_truncates_silently_witness :
    ((0 : Int) < 1 ∧
      cascade_soft_delete chain_rel chain_hasSD chain_db ("T", 1) none none 7 1
        = Except.ok (cascade_delete_recursive chain_rel chain_hasSD none none 7
            (Int.toNat 1) ("T", 1) (init_cascade_state chain_db))) ∧
    ((("T", 3) : Key) ≠ ("T", 2) ∧
      (cascade_delete_recursive chain_rel chain_hasSD none none 7 0 ("T", 2)
          (init_cascade_state chain_db)).db ("T", 3)
        = (init_cascade_state chain_db).db ("T", 3)) :=
  ⟨⟨by decide,
    cascade_truncates_silently.1 chain_rel chain_hasSD chain_db ("T", 1)
      none none 7 1 (by decide)⟩,
   ⟨by decide,
    cascade_truncates_silently.2 chain_rel chain_hasSD none none 7 ("T", 2)
      (init_cascade_state chain_db) ("T", 3) (by decide)⟩⟩

/-- C1 (counterexample to the claim as stated): on the three-node chain with
max_depth one, the depth budget reaches zero at node 2 while its related
record node 3 is still unprocessed, yet the call returns normally with
node 2 soft-deleted and node 3 untouched and still active; no depth-exceeded
error is raised during traversal. -/
theorem cascade_depth_counterexample :
    cascade_soft_delete chain_rel chain_hasSD chain_db ("T", 1) none none 7 1
      = Except.ok chain_result ∧
    ("T", 3) ∈ chain_rel ("T", 2) ∧
    is_soft_deleted (chain_result.db ("T", 2)) = true ∧
    chain_result.db ("T", 3) = chain_db ("T", 3) ∧
    is_soft_deleted (chain_db ("T", 3)) = false :=
  ⟨rfl, by decide, by decide, by decide, by decide⟩

/-- core/soft_delete_config.py lines 207-212: the cleanup_schedule_hours
validator; every hour must lie in 0..23, otherwise a ValueError. -/
def validate_cleanup_hours (v : List Int) : Except String (List Int) :=
  if v.all (fun h => decide (0 ≤ h) && decide (h ≤ 23)) then
    Except.ok v
  else
    Except.error "Cleanup hours must be between 0 and 23"

/-- core/soft_delete_config.py lines 214-223: the timezone validator.  The
pytz zone database is external, so it enters the model as the recognition
predicate known_tz. -/
def validate_timezone (known_tz : String → Bool) (v : String) : Except String String :=
  if known_tz v then
    Except.ok v
  else
    Except.error ("Invalid timezone: " ++ v)

/-- The validated configuration fields the claims touch
(core/soft_delete_config.py lines 75-80, 82-85, 88-93, 165). -/
structure SoftDeleteConfig where
  cleanup_batch_size : Int
  bulk_operation_batch_size : Int
  cleanup_schedule_hours : List Int
  timezone : String

/-- Construction of a SoftDeleteConfig: pydantic enforces the declared field
bounds (ge 100, le 10000 on both batch sizes) and runs the two validators;
any failure aborts construction with a validation error and no instance is
produced; on success every field holds exactly the supplied value. -/
def mkSoftDeleteConfig (known_tz : String → Bool) (cbs bobs : Int)
    (hours : List Int) (tz : String) : Except String SoftDeleteConfig :=
  if !(decide (100 ≤ cbs) && decide (cbs ≤ 10000)) then
    Except.error "cleanup_batch_size out of range"
  else if !(decide (100 ≤ bobs) && decide (bobs ≤ 10000)) then
    Except.error "bulk_operation_batch_size out of range"
  else
    match validate_cleanup_hours hours with
    | Except.error e => Except.error e
    | Except.ok hs =>
        match validate_timezone known_tz tz with
        | Except.error e => Except.error e
        | Except.ok t => Except.ok ⟨cbs, bobs, hs, t⟩

/-- C9: constructing a SoftDeleteConfig with a cleanup hour outside 0..23,
an unrecognized timezone, or a batch size outside its declared bounds never
yields a configuration instance, and a successful construction carries the
supplied values unchanged, never a substituted default. -/
theorem soft_delete_config_validation (known_tz : String → Bool) (cbs bobs : Int)
    (hours : List Int) (tz : String) :
    (∀ cfg, mkSoftDeleteConfig known_tz cbs bobs hours tz = Except.ok cfg →
      cfg.cleanup_batch_size = cbs ∧ cfg.bulk_operation_batch_size = bobs ∧
      cfg.cleanup_schedule_hours = hours ∧ cfg.timezone = tz) ∧
    ((∃ h ∈ hours, h < 0 ∨ 23 < h) →
      ∀ cfg, mkSoftDeleteConfig known_tz cbs bobs hours tz ≠ Except.ok cfg) ∧
    (known_tz tz = false →
      ∀ cfg, mkSoftDeleteConfig known_tz cbs bobs hours tz ≠ Except.ok cfg) ∧
    ((cbs < 100 ∨ 10000 < cbs) →
      ∀ cfg, mkSoftDeleteConfig known_tz cbs bobs hours tz ≠ Except.ok cfg) ∧
    ((bobs < 100 ∨ 10000 < bobs) →
      ∀ cfg, mkSoftDeleteConfig known_tz cbs bobs hours tz ≠ Except.ok cfg) := by
  refine ⟨?_, ?_, ?_, ?_, ?_⟩
  · intro cfg hok
    unfold mkSoftDeleteConfig at hok
    split at hok
    · exact Except.noConfusion hok
    · split at hok
      · exact Except.noConfusion hok
      · split at hok
        · exact Except.noConfusion hok
        · rename_i hs hhours
          split at hok
          · exact Except.noConfusion hok
          · rename_i t htz
            cases hok
            have hhs : hs = hours := by
              unfold validate_cleanup_hours at hhours
              split at hhours
              · cases hhours
                rfl
              · exact Except.noConfusion hhours
            have hts : t = tz := by
              unfold validate_timezone at htz
              split at htz
              · cases htz
                rfl
              · exact Except.noConfusion htz
            exact ⟨rfl, rfl, hhs, hts⟩
  · intro hex cfg hok
    unfold mkSoftDeleteConfig at hok
    split at hok
    · exact Except.noConfusion hok
    · split at hok
      · exact Except.noConfusion hok
      · have hall : hours.all (fun h => decide (0 ≤ h) && decide (h ≤ 23)) = false := by
          apply List.all_eq_false.mpr
          rcases hex with ⟨x, hx, hout⟩
          refine ⟨x, hx, ?_⟩
          simp only [Bool.and_eq_true, decide_eq_true_eq, not_and]
          omega
        have hv : validate_cleanup_hours hours
            = Except.error "Cleanup hours must be between 0 and 23" := by
          unfold validate_cleanup_hours
          rw [if_neg (by rw [hall]; exact Bool.false_ne_true)]
        rw [hv] at hok
        exact Except.noConfusion hok
  · intro htz cfg hok
    unfold mkSoftDeleteConfig at hok
    split at hok
    · exact Except.noConfusion hok
    · split at hok
      · exact Except.noConfusion hok
      · split at hok
        · exact Except.noConfusion hok
        · have hv : validate_timezone known_tz tz
              = Except.error ("Invalid timezone: " ++ tz) := by
            unfold validate_timezone
            rw [if_neg (by rw [htz]; exact Bool.false_ne_true)]
          rw [hv] at hok
          exact Except.noConfusion hok
  · intro hcbs cfg hok
    unfold mkSoftDeleteConfig at hok
    have hc : (!(decide (100 ≤ cbs) && decide (cbs ≤ 10000))) = true := by
      rcases hcbs with h | h
      · have hd : decide (100 ≤ cbs) = false := decide_eq_false (by omega)
        simp [hd]
      · have hd : decide (cbs ≤ 10000) = false := decide_eq_false (by omega)
        simp [hd]
    rw [if_pos hc] at hok
    exact Except.noConfusion hok
  · intro hbobs cfg hok
    unfold mkSoftDeleteConfig at hok
    split at hok
    · exact Except.noConfusion hok
    · have hc : (!(decide (100 ≤ bobs) && decide (bobs ≤ 10000))) = true := by
        rcases hbobs with h | h
        · have hd : decide (100 ≤ bobs) = false := decide_eq_false (by omega)
          simp [hd]
        · have hd : decide (bobs ≤ 10000) = false := decide_eq_false (by omega)
          simp [hd]
      rw [if_pos hc] at hok
      exact Except.noConfusion hok

/-- A one-zone recognition predicate standing in for pytz in concrete runs. -/
def utc_only : String → Bool := fun s => s == "UTC"

theorem soft_delete_config_validation_witness :
    ((SoftDeleteConfig.mk 1000 1000 [2] "UTC").cleanup_batch_size = 1000 ∧
     (SoftDeleteConfig.mk 1000 1000 [2] "UTC").bulk_operation_batch_size = 1000 ∧
     (SoftDeleteConfig.mk 1000 1000 [2] "UTC").cleanup_schedule_hours = [2] ∧
     (SoftDeleteConfig.mk 1000 1000 [2] "UTC").timezone = "UTC") ∧
    (∀ cfg, mkSoftDeleteConfig utc_only 1000 1000 [25] "UTC" ≠ Except.ok cfg) ∧
    (∀ cfg, mkSoftDeleteConfig utc_only 1000 1000 [2] "Mars/Olympus"
      ≠ Except.ok cfg) ∧
    (∀ cfg, mkSoftDeleteConfig utc_only 50 1000 [2] "UTC" ≠ Except.ok cfg) ∧
    (∀ cfg, mkSoftDeleteConfig utc_only 1000 20000 [2] "UTC" ≠ Except.ok cfg) :=
  ⟨(soft_delete_config_validation utc_only 1000 1000 [2] "UTC").1 _ rfl,
   (soft_delete_config_validation utc_only 1000 1000 [25] "UTC").2.1
     ⟨25, by decide, by decide⟩,
   (soft_delete_config_validation utc_only 1000 1000 [2] "Mars/Olympus").2.2.1
     (by decide),
   (soft_delete_config_validation utc_only 50 1000 [2] "UTC").2.2.2.1
     (Or.inl (by decide)),
   (soft_delete_config_validation utc_only 1000 20000 [2] "UTC").2.2.2.2
     (Or.inr (by decide))⟩

/-- database_utils.py line 171 and base_service.py lines 407-409: the
deletion-ratio expression, deleted divided by total times 100 when the total
is positive, else 0, over exact rationals. -/
def deletion_ratio_percent (deleted total : Nat) : Rat :=
  if 0 < total then (deleted : Rat) / (total : Rat) * 100 else 0

/-- database_utils.py lines 144-184: get_table_statistics counts active and
deleted rows, takes total as their sum, and derives the ratio from it. -/
def get_table_statistics_ratio (active deleted : Nat) : Rat :=
  deletion_ratio_percent deleted (active + deleted)

/-- base_service.py lines 391-411: get_statistics counts total and active
rows, takes deleted as their difference, and derives the ratio. -/
def get_statistics_ratio (total active : Nat) : Rat :=
  deletion_ratio_percent (total - active) total

/-- C10: both statistics reporters guard the deletion-ratio division: with
zero total rows the reported ratio is zero instead of a division failure,
and whenever the total is positive the ratio is exactly deleted over total
times one hundred. -/
theorem deletion_ratio_guarded :
    (∀ active deleted : Nat, active + deleted = 0 →
      get_table_statistics_ratio active deleted = 0) ∧
    (∀ active deleted : Nat, 0 < active + deleted →
      get_table_statistics_ratio active deleted
        = (deleted : Rat) / ((active + deleted : Nat) : Rat) * 100) ∧
    (∀ total active : Nat, total = 0 → get_statistics_ratio total active = 0) ∧
    (∀ total active : Nat, 0 < total →
      get_statistics_ratio total active
        = ((total - active : Nat) : Rat) / (total : Rat) * 100) := by
  refine ⟨?_, ?_, ?_, ?_⟩
  · intro a d h
    unfold get_table_statistics_ratio deletion_ratio_percent
    rw [if_neg (by omega)]
  · intro a d h
    unfold get_table_statistics_ratio deletion_ratio_percent
    rw [if_pos h]
  · intro t a h
    unfold get_statistics_ratio deletion_ratio_percent
    rw [if_neg (by omega)]
  · intro t a h
    unfold get_statistics_ratio deletion_ratio_percent
    rw [if_pos h]

theorem deletion_ratio_guarded_witness :
    (0 + 0 = 0 ∧ get_table_statistics_ratio 0 0 = 0) ∧
    (0 < 1 + 1 ∧ get_table_statistics_ratio 1 1
      = (1 : Rat) / ((1 + 1 : Nat) : Rat) * 100) ∧
    (get_statistics_ratio 0 5 = 0) ∧
    (0 < 4 ∧ get_statistics_ratio 4 1
      = ((4 - 1 : Nat) : Rat) / ((4 : Nat) : Rat) * 100) :=
  ⟨⟨rfl, deletion_ratio_guarded.1 0 0 rfl⟩,
   ⟨by decide, deletion_ratio_guarded.2.1 1 1 (by decide)⟩,
   deletion_ratio_guarded.2.2.1 0 5 rfl,
   ⟨by decide, deletion_ratio_guarded.2.2.2 4 1 (by decide)⟩⟩
